import Mathlib

/-!
# Verification of the `tf_cdist` pairwise-distance module

Shallow embedding of `src/utilmy/deeplearning/keras/util_similarity.py`.

The module computes the full pairwise distance matrix between the rows of two
matrices `left : (m, d)` and `right : (p, d)` under a metric selected by a
string tag (`"euclidean"` or `"cosine"`).

Two embeddings are given, both translated line by line from the source:

* a typed model over `Matrix (Fin m) (Fin d) ℝ`, where the working 32-bit
  float arithmetic of the source is modelled by exact real arithmetic (the
  final `tf.cast(·, tf.float32)` of each routine is the identity here);
* a shape-carrying list model (`Tensor2`), where tensors carry their static
  shape as TensorFlow tensors do, and the shape errors raised by the numeric
  substrate (`tf.matmul` on incompatible inner dimensions) are explicit.

A small IEEE-style value type `FVal` (finite reals extended with `inf`,
`neginf`, `nan`) models the float special values that the unguarded division
of the cosine routine can produce.
-/

open Finset

namespace UtilSimilarity

/-- Errors surfaced by `tf_cdist` and its numeric substrate.
`unsupportedMetric` models the `ValueError` raised at the dispatch site
(source lines 77-79), carrying the offending metric value as the message does.
`invalidArgument` models the substrate's shape error raised by `tf.matmul`
when the inner dimensions of its operands differ, carrying the two inner
dimensions. `dimensionMismatch` — Modelled from the spec: the dedicated
`DimensionMismatch` error the spec recommends as an addition; no code in the
source constructs or raises it. -/
inductive TfError where
  | unsupportedMetric (metric : String)
  | invalidArgument (leftInner rightInner : ℕ)
  | dimensionMismatch
  deriving DecidableEq

/-! ## Typed model over `Matrix (Fin m) (Fin d) ℝ` -/

variable {m d p : ℕ}

/-- `__get_tensor_sqr(tensor, (-1, 1), (1, p))` (source lines 129-138):
`tf.pow(tensor, 2.0)` then `tf.reduce_sum(axis=1)` gives the per-row sum of
squares; `tf.reshape(·, (-1, 1))` makes it a column which `tf.tile(·, (1, p))`
repeats across `p` columns, so entry `(i, j)` is the squared norm of row `i`. -/
def get_tensor_sqr_col (t : Matrix (Fin n) (Fin d) ℝ) (p : ℕ) :
    Matrix (Fin n) (Fin p) ℝ :=
  fun i _ => ∑ k, t i k ^ 2

/-- `__get_tensor_sqr(tensor, (1, -1), (m, 1))` (source lines 129-138): the
per-row sum of squares reshaped to a row and tiled down `m` rows, so entry
`(i, j)` is the squared norm of row `j`. -/
def get_tensor_sqr_row (t : Matrix (Fin n) (Fin d) ℝ) (m : ℕ) :
    Matrix (Fin m) (Fin n) ℝ :=
  fun _ j => ∑ k, t j k ^ 2

/-- `sqr_sum = left_sqr - 2.0 * left_right_mat_mul + right_sqr` (source line
94), where `left_right_mat_mul = tf.matmul(left, tf.transpose(right))`
(source line 93). -/
def sqr_sum (left : Matrix (Fin m) (Fin d) ℝ) (right : Matrix (Fin p) (Fin d) ℝ) :
    Matrix (Fin m) (Fin p) ℝ :=
  fun i j =>
    get_tensor_sqr_col left p i j - 2 * (left * right.transpose) i j +
      get_tensor_sqr_row right m i j

/-- `tf_cdist_euclidean` (source lines 82-96): combine the tiled squared norms
with the cross term and apply the clamp
`distance = tf.where(sqr_sum > 0.0, tf.sqrt(sqr_sum), 0.0)` (source line 95).
The final `tf.cast(·, tf.float32)` is the identity in the real model. -/
noncomputable def tf_cdist_euclidean (left : Matrix (Fin m) (Fin d) ℝ)
    (right : Matrix (Fin p) (Fin d) ℝ) : Matrix (Fin m) (Fin p) ℝ :=
  fun i j => if sqr_sum left right i j > 0 then Real.sqrt (sqr_sum left right i j) else 0

/-- `__get_tensor_reshaped_norm` (source lines 141-149): `tf.norm(tensor,
axis=1)` is the per-row Euclidean norm, i.e. the square root of the row's sum
of squares; the reshape only fixes the broadcast orientation, so the model
returns the norm of row `i` directly. -/
noncomputable def get_tensor_reshaped_norm (t : Matrix (Fin n) (Fin d) ℝ)
    (i : Fin n) : ℝ :=
  Real.sqrt (∑ k, t i k ^ 2)

/-- `tf_cdist_cos` (source lines 98-110):
`cos = tf.matmul(left, tf.transpose(right)) / norm_left / norm_right` and
`distance = 1.0 - cos`; the division is by the broadcast left-norm column
first, then by the broadcast right-norm row. The final cast is the identity. -/
noncomputable def tf_cdist_cos (left : Matrix (Fin m) (Fin d) ℝ)
    (right : Matrix (Fin p) (Fin d) ℝ) : Matrix (Fin m) (Fin p) ℝ :=
  fun i j =>
    1 - (left * right.transpose) i j / get_tensor_reshaped_norm left i /
      get_tensor_reshaped_norm right j

/-- `tf_cdist` (source lines 66-79): dispatch on the metric string; any value
outside `{"euclidean", "cosine"}` raises `ValueError` with the offending
value, before any numeric work. -/
noncomputable def tf_cdist (left : Matrix (Fin m) (Fin d) ℝ)
    (right : Matrix (Fin p) (Fin d) ℝ) (metric : String) :
    Except TfError (Matrix (Fin m) (Fin p) ℝ) :=
  if metric = "euclidean" then .ok (tf_cdist_euclidean left right)
  else if metric = "cosine" then .ok (tf_cdist_cos left right)
  else .error (.unsupportedMetric metric)

/-! ## Basic algebra of the Euclidean combination -/

/-- In exact arithmetic the combined quantity `sqr_sum` is the squared norm of
the difference of the two rows. -/
theorem sqr_sum_eq_sum_sq (left : Matrix (Fin m) (Fin d) ℝ)
    (right : Matrix (Fin p) (Fin d) ℝ) (i : Fin m) (j : Fin p) :
    sqr_sum left right i j = ∑ k, (left i k - right j k) ^ 2 := by
  unfold sqr_sum get_tensor_sqr_col get_tensor_sqr_row
  rw [Matrix.mul_apply]
  simp only [Matrix.transpose_apply]
  rw [Finset.mul_sum, ← Finset.sum_sub_distrib, ← Finset.sum_add_distrib]
  exact Finset.sum_congr rfl fun k _ => by ring

theorem sqr_sum_nonneg (left : Matrix (Fin m) (Fin d) ℝ)
    (right : Matrix (Fin p) (Fin d) ℝ) (i : Fin m) (j : Fin p) :
    0 ≤ sqr_sum left right i j := by
  rw [sqr_sum_eq_sum_sq]
  exact Finset.sum_nonneg fun k _ => sq_nonneg _

/-- The clamp never fires on a strictly positive `sqr_sum` and `sqr_sum` is
non-negative in exact arithmetic, so each Euclidean entry is the square root
of the sum of squared coordinate differences. -/
theorem tf_cdist_euclidean_eq_sqrt (left : Matrix (Fin m) (Fin d) ℝ)
    (right : Matrix (Fin p) (Fin d) ℝ) (i : Fin m) (j : Fin p) :
    tf_cdist_euclidean left right i j =
      Real.sqrt (∑ k, (left i k - right j k) ^ 2) := by
  have hs := sqr_sum_eq_sum_sq left right i j
  unfold tf_cdist_euclidean
  by_cases hpos : sqr_sum left right i j > 0
  · rw [if_pos hpos, hs]
  · rw [if_neg hpos]
    have h0 : sqr_sum left right i j = 0 :=
      le_antisymm (not_lt.mp hpos) (sqr_sum_nonneg left right i j)
    rw [← hs, h0, Real.sqrt_zero]

/-- C1: every entry `(i, j)` of the Euclidean routine's output equals the
Euclidean distance between row `i` of `left` and row `j` of `right` (stated
both as the explicit square root of the sum of squared coordinate differences
and as the distance in `EuclideanSpace ℝ (Fin d)`), and the combined quantity
`sqr_sum` computed as `left_norms_tiled - 2*cross_term + right_norms_tiled`
equals the squared norm of `left_i - right_j` in exact arithmetic. -/
theorem euclidean_entry_eq_dist (left : Matrix (Fin m) (Fin d) ℝ)
    (right : Matrix (Fin p) (Fin d) ℝ) (i : Fin m) (j : Fin p) :
    tf_cdist_euclidean left right i j = Real.sqrt (∑ k, (left i k - right j k) ^ 2) ∧
    tf_cdist_euclidean left right i j =
      dist (show EuclideanSpace ℝ (Fin d) from fun k => left i k)
        (show EuclideanSpace ℝ (Fin d) from fun k => right j k) ∧
    sqr_sum left right i j = ∑ k, (left i k - right j k) ^ 2 := by
  have hmain := tf_cdist_euclidean_eq_sqrt left right i j
  refine ⟨hmain, ?_, sqr_sum_eq_sum_sq left right i j⟩
  rw [hmain, EuclideanSpace.dist_eq]
  congr 1
  exact Finset.sum_congr rfl fun k _ => by rw [Real.dist_eq, sq_abs]

/-! ## Cosine routine: entry formula and bounds -/

/-- Each cosine entry equals one minus the dot product divided by the product
of the two row norms: the two successive broadcast divisions of the source
collapse to a single division by the product. -/
theorem tf_cdist_cos_eq (left : Matrix (Fin m) (Fin d) ℝ)
    (right : Matrix (Fin p) (Fin d) ℝ) (i : Fin m) (j : Fin p) :
    tf_cdist_cos left right i j =
      1 - (∑ k, left i k * right j k) /
        (get_tensor_reshaped_norm left i * get_tensor_reshaped_norm right j) := by
  unfold tf_cdist_cos
  rw [Matrix.mul_apply, div_div]
  simp only [Matrix.transpose_apply]

/-- Cauchy-Schwarz for the cross term: the dot product of two rows is bounded
in absolute value by the product of their Euclidean norms. -/
theorem abs_dot_le_norm_mul (left : Matrix (Fin m) (Fin d) ℝ)
    (right : Matrix (Fin p) (Fin d) ℝ) (i : Fin m) (j : Fin p) :
    |∑ k, left i k * right j k| ≤
      get_tensor_reshaped_norm left i * get_tensor_reshaped_norm right j := by
  unfold get_tensor_reshaped_norm
  rw [← Real.sqrt_sq_eq_abs, ← Real.sqrt_mul (Finset.sum_nonneg fun k _ => sq_nonneg _)]
  exact Real.sqrt_le_sqrt (Finset.sum_mul_sq_le_sq_mul_sq _ _ _)

theorem get_tensor_reshaped_norm_nonneg (t : Matrix (Fin n) (Fin d) ℝ) (i : Fin n) :
    0 ≤ get_tensor_reshaped_norm t i :=
  Real.sqrt_nonneg _

/-- On rows of nonzero norm each cosine entry lies in `[0, 2]`. -/
theorem cos_entry_bounds (left : Matrix (Fin m) (Fin d) ℝ)
    (right : Matrix (Fin p) (Fin d) ℝ) (i : Fin m) (j : Fin p)
    (hl : get_tensor_reshaped_norm left i ≠ 0)
    (hr : get_tensor_reshaped_norm right j ≠ 0) :
    0 ≤ tf_cdist_cos left right i j ∧ tf_cdist_cos left right i j ≤ 2 := by
  have hnl : 0 < get_tensor_reshaped_norm left i :=
    lt_of_le_of_ne (get_tensor_reshaped_norm_nonneg left i) (Ne.symm hl)
  have hnr : 0 < get_tensor_reshaped_norm right j :=
    lt_of_le_of_ne (get_tensor_reshaped_norm_nonneg right j) (Ne.symm hr)
  have hprod : 0 < get_tensor_reshaped_norm left i * get_tensor_reshaped_norm right j :=
    mul_pos hnl hnr
  have habs := abs_dot_le_norm_mul left right i j
  rw [tf_cdist_cos_eq]
  constructor
  · have hle : (∑ k, left i k * right j k) /
        (get_tensor_reshaped_norm left i * get_tensor_reshaped_norm right j) ≤ 1 :=
      (div_le_one hprod).mpr (le_trans (le_abs_self _) habs)
    linarith
  · have hge : (-1 : ℝ) ≤ (∑ k, left i k * right j k) /
        (get_tensor_reshaped_norm left i * get_tensor_reshaped_norm right j) := by
      rw [le_div_iff₀ hprod]
      have hneg := neg_abs_le (∑ k, left i k * right j k)
      linarith
    linarith

/-- C2: every entry `(i, j)` of the cosine routine's output equals `1` minus
the dot product of `left_i` and `right_j` divided by the product of their
Euclidean norms; the cross term is divided first by the broadcast left-norm
column and then by the broadcast right-norm row, which collapses to the
division by the product. -/
theorem cos_entry_eq_one_sub_similarity (left : Matrix (Fin m) (Fin d) ℝ)
    (right : Matrix (Fin p) (Fin d) ℝ) (i : Fin m) (j : Fin p) :
    tf_cdist_cos left right i j =
      1 - (left * right.transpose) i j / get_tensor_reshaped_norm left i /
        get_tensor_reshaped_norm right j ∧
    tf_cdist_cos left right i j =
      1 - (∑ k, left i k * right j k) /
        (Real.sqrt (∑ k, left i k ^ 2) * Real.sqrt (∑ k, right j k ^ 2)) := by
  refine ⟨rfl, ?_⟩
  rw [tf_cdist_cos_eq]
  rfl

/-- C3: for all valid inputs and both metrics every entry of the result is
non-negative — the Euclidean entries unconditionally, the cosine entries
whenever no row has zero norm, the unguarded cosine zero-norm division being
the claim's sole exception; and in the Euclidean routine, wherever
`sqr_sum > 0` the output is its square root, and everywhere else (including
any negative value) the output is exactly `0`. -/
theorem cdist_nonneg_and_clamp (left : Matrix (Fin m) (Fin d) ℝ)
    (right : Matrix (Fin p) (Fin d) ℝ) :
    (∀ i j, 0 ≤ tf_cdist_euclidean left right i j) ∧
    (∀ i j, 0 < sqr_sum left right i j →
      tf_cdist_euclidean left right i j = Real.sqrt (sqr_sum left right i j)) ∧
    (∀ i j, ¬ 0 < sqr_sum left right i j → tf_cdist_euclidean left right i j = 0) ∧
    ((∀ i, get_tensor_reshaped_norm left i ≠ 0) →
      (∀ j, get_tensor_reshaped_norm right j ≠ 0) →
      ∀ i j, 0 ≤ tf_cdist_cos left right i j) := by
  refine ⟨?_, ?_, ?_, ?_⟩
  · intro i j
    unfold tf_cdist_euclidean
    by_cases hpos : sqr_sum left right i j > 0
    · rw [if_pos hpos]; exact Real.sqrt_nonneg _
    · rw [if_neg hpos]
  · intro i j hpos
    unfold tf_cdist_euclidean
    rw [if_pos hpos]
  · intro i j hpos
    unfold tf_cdist_euclidean
    rw [if_neg hpos]
  · intro hl hr i j
    exact (cos_entry_bounds left right i j (hl i) (hr j)).1

/-- C10: on inputs all of whose rows have nonzero norm, every cosine entry
lies in the closed interval `[0, 2]` (Cauchy-Schwarz puts the cosine
similarity in `[-1, 1]`). -/
theorem cos_entries_between_zero_and_two (left : Matrix (Fin m) (Fin d) ℝ)
    (right : Matrix (Fin p) (Fin d) ℝ)
    (hl : ∀ i, get_tensor_reshaped_norm left i ≠ 0)
    (hr : ∀ j, get_tensor_reshaped_norm right j ≠ 0) :
    ∀ i j, 0 ≤ tf_cdist_cos left right i j ∧ tf_cdist_cos left right i j ≤ 2 :=
  fun i j => cos_entry_bounds left right i j (hl i) (hr j)

/-! ## Dispatch -/

/-- C9: the dispatcher returns exactly the dedicated routine's matrix for each
of the two supported metric strings. -/
theorem cdist_dispatch_eq (left : Matrix (Fin m) (Fin d) ℝ)
    (right : Matrix (Fin p) (Fin d) ℝ) :
    tf_cdist left right "euclidean" = .ok (tf_cdist_euclidean left right) ∧
    tf_cdist left right "cosine" = .ok (tf_cdist_cos left right) :=
  ⟨rfl, rfl⟩

/-- C4: any metric string outside `{"euclidean", "cosine"}` makes `tf_cdist`
fail with `unsupportedMetric` carrying the offending value; the error is the
whole result, so no numeric computation on `left` or `right` contributes to
it and no partial matrix is produced. -/
theorem cdist_unsupported_metric (left : Matrix (Fin m) (Fin d) ℝ)
    (right : Matrix (Fin p) (Fin d) ℝ) (metric : String)
    (h1 : metric ≠ "euclidean") (h2 : metric ≠ "cosine") :
    tf_cdist left right metric = .error (.unsupportedMetric metric) := by
  unfold tf_cdist
  rw [if_neg h1, if_neg h2]

/-- C8: the Euclidean self-comparison matrix has zero diagonal and is
symmetric, and the dispatched call computes exactly that matrix. -/
theorem euclidean_self_symm_zero_diag {n : ℕ} (X : Matrix (Fin n) (Fin d) ℝ) :
    tf_cdist X X "euclidean" = .ok (tf_cdist_euclidean X X) ∧
    (∀ i, tf_cdist_euclidean X X i i = 0) ∧
    (∀ i j, tf_cdist_euclidean X X i j = tf_cdist_euclidean X X j i) := by
  refine ⟨rfl, ?_, ?_⟩
  · intro i
    rw [tf_cdist_euclidean_eq_sqrt]
    simp
  · intro i j
    rw [tf_cdist_euclidean_eq_sqrt, tf_cdist_euclidean_eq_sqrt]
    congr 1
    exact Finset.sum_congr rfl fun k _ => by ring

/-! ## IEEE-style special values for the unguarded cosine division

The source computes in 32-bit floats, whose division by zero produces `inf`
(nonzero numerator) or `NaN` (zero numerator) instead of raising. `FVal`
models a float as an exact real extended with the three special values, with
the IEEE propagation rules for the operations the cosine routine uses. -/

inductive FVal where
  | val (x : ℝ)
  | inf
  | neginf
  | nan

/-- IEEE addition on extended values: finite values add exactly, infinities
absorb finite values, opposite infinities give `nan`, `nan` propagates. -/
noncomputable def FVal.add : FVal → FVal → FVal
  | val a, val b => val (a + b)
  | val _, inf => inf
  | val _, neginf => neginf
  | inf, val _ => inf
  | neginf, val _ => neginf
  | inf, inf => inf
  | neginf, neginf => neginf
  | inf, neginf => nan
  | neginf, inf => nan
  | _, _ => nan

/-- IEEE subtraction on extended values. -/
noncomputable def FVal.sub : FVal → FVal → FVal
  | val a, val b => val (a - b)
  | val _, inf => neginf
  | val _, neginf => inf
  | inf, val _ => inf
  | neginf, val _ => neginf
  | inf, inf => nan
  | neginf, neginf => nan
  | inf, neginf => inf
  | neginf, inf => neginf
  | _, _ => nan

/-- IEEE multiplication on extended values: `0 * inf = nan`, signs as usual,
`nan` propagates. -/
noncomputable def FVal.mul : FVal → FVal → FVal
  | val a, val b => val (a * b)
  | val a, inf => if a > 0 then inf else if a < 0 then neginf else nan
  | inf, val a => if a > 0 then inf else if a < 0 then neginf else nan
  | val a, neginf => if a > 0 then neginf else if a < 0 then inf else nan
  | neginf, val a => if a > 0 then neginf else if a < 0 then inf else nan
  | inf, inf => inf
  | inf, neginf => neginf
  | neginf, inf => neginf
  | neginf, neginf => inf
  | _, _ => nan

/-- IEEE division on extended values: a nonzero finite value divided by zero
is a signed infinity, `0 / 0 = nan`, a finite value divided by an infinity is
`0`, infinity over infinity is `nan`, `nan` propagates. -/
noncomputable def FVal.div : FVal → FVal → FVal
  | val a, val b =>
      if b ≠ 0 then val (a / b)
      else if a > 0 then inf
      else if a < 0 then neginf
      else nan
  | val _, inf => val 0
  | val _, neginf => val 0
  | inf, val b => if b ≥ 0 then inf else neginf
  | neginf, val b => if b ≥ 0 then neginf else inf
  | _, _ => nan

/-- IEEE square root on extended values: `nan` on negative inputs. -/
noncomputable def FVal.sqrt : FVal → FVal
  | val x => if x < 0 then nan else val (Real.sqrt x)
  | inf => inf
  | neginf => nan
  | nan => nan

/-- `tf.reduce_sum` over a list of extended values. -/
noncomputable def fvalSum (l : List FVal) : FVal :=
  l.foldr FVal.add (FVal.val 0)

/-- `tf_cdist_cos` (source lines 98-110) over IEEE-style values: per-row norm
`tf.norm(axis=1)` as the square root of the summed squares, the matmul cross
term, the two unguarded broadcast divisions, and `1.0 - cos`. -/
noncomputable def tf_cdist_cos_fv (left : Matrix (Fin m) (Fin d) FVal)
    (right : Matrix (Fin p) (Fin d) FVal) : Matrix (Fin m) (Fin p) FVal :=
  fun i j =>
    FVal.sub (FVal.val 1)
      (FVal.div
        (FVal.div (fvalSum (List.ofFn fun k => FVal.mul (left i k) (right j k)))
          (FVal.sqrt (fvalSum (List.ofFn fun k => FVal.mul (left i k) (left i k)))))
        (FVal.sqrt (fvalSum (List.ofFn fun k => FVal.mul (right j k) (right j k)))))

theorem fvalSum_val {d : ℕ} (f : Fin d → ℝ) :
    fvalSum (List.ofFn fun k => FVal.val (f k)) = FVal.val (∑ k, f k) := by
  induction d with
  | zero => simp [fvalSum]
  | succ d ih =>
      rw [List.ofFn_succ]
      unfold fvalSum at ih ⊢
      rw [List.foldr_cons, ih (fun k => f k.succ), Fin.sum_univ_succ]
      rfl

theorem fval_div_nan_left (y : FVal) : FVal.div FVal.nan y = FVal.nan := by
  cases y <;> rfl

theorem fval_zero_div_zero : FVal.div (FVal.val 0) (FVal.val 0) = FVal.nan := by
  unfold FVal.div
  norm_num

/-- C5: on an input whose row `k` of `left` is all zeros the cosine path does
not fail: the dispatched call still returns the full cosine matrix, and in
IEEE float semantics the unguarded division by the zero norm makes every
entry of row `k` of the result `nan`, which is returned rather than an
error. -/
theorem cos_zero_norm_row_nan (left : Matrix (Fin m) (Fin d) ℝ)
    (right : Matrix (Fin p) (Fin d) ℝ) (k : Fin m) (hL : ∀ t, left k t = 0) :
    tf_cdist left right "cosine" = .ok (tf_cdist_cos left right) ∧
    ∀ j, tf_cdist_cos_fv (fun i t => FVal.val (left i t))
      (fun i t => FVal.val (right i t)) k j = FVal.nan := by
  refine ⟨rfl, fun j => ?_⟩
  unfold tf_cdist_cos_fv
  have hmulv : ∀ (f g : Fin d → ℝ),
      (fun t => FVal.mul (FVal.val (f t)) (FVal.val (g t))) =
        fun t => FVal.val (f t * g t) := fun f g => funext fun t => rfl
  rw [hmulv, hmulv, hmulv, fvalSum_val, fvalSum_val]
  have hdot : (∑ t, left k t * right j t) = 0 := by
    simp [hL]
  have hsq : (∑ t, left k t * left k t) = 0 := by
    simp [hL]
  rw [hdot, hsq]
  have hsqrt0 : FVal.sqrt (FVal.val 0) = FVal.val 0 := by
    simp [FVal.sqrt]
  rw [hsqrt0, fval_zero_div_zero, fval_div_nan_left]
  rfl

/-! ## Shape-carrying list model (`Tensor2`)

Dimension mismatch and the shape contract are dynamic-shape facts, so this
second translation of the same source lines keeps shapes as data: a tensor is
its static shape plus its row-major entries, exactly as the TensorFlow
substrate tracks them, and `tf.matmul` raises the substrate's shape error
when the inner dimensions of its operands differ. -/

/-- A rank-2 tensor: static shape `(rows, cols)` plus row-major data. -/
structure Tensor2 where
  rows : ℕ
  cols : ℕ
  data : List (List ℝ)

/-- The data agrees with the declared static shape. -/
def Tensor2.WF (t : Tensor2) : Prop :=
  t.data.length = t.rows ∧ ∀ i (h : i < t.data.length), (t.data[i]).length = t.cols

/-- `tf.pow(t, 2.0)` followed by `tf.reduce_sum(axis=1)` on one row. -/
def rowSumSq (row : List ℝ) : ℝ := (row.map fun x => x ^ 2).sum

/-- `tf.norm(t, axis=1)` on one row. -/
noncomputable def rowNorm (row : List ℝ) : ℝ := Real.sqrt (row.map fun x => x ^ 2).sum

/-- `__get_rows_counts` (source lines 121-127): `tf.shape(left)[0]` and
`tf.shape(right)[0]`, the dynamic row counts. -/
def get_rows_counts (left right : Tensor2) : ℕ × ℕ :=
  (left.data.length, right.data.length)

/-- `__get_tensor_sqr(t, (-1, 1), (1, tile))` (source lines 129-138): per-row
sums of squares as a column, tiled across `tile` columns. -/
def get_tensor_sqr_col_t (t : Tensor2) (tile : ℕ) : Tensor2 :=
  ⟨t.data.length, tile, t.data.map fun r => List.replicate tile (rowSumSq r)⟩

/-- `__get_tensor_sqr(t, (1, -1), (tile, 1))` (source lines 129-138): per-row
sums of squares as a row, tiled down `tile` rows. -/
def get_tensor_sqr_row_t (t : Tensor2) (tile : ℕ) : Tensor2 :=
  ⟨tile, t.data.length, List.replicate tile (t.data.map rowSumSq)⟩

/-- `tf.matmul(left, tf.transpose(right))` (source line 93): the substrate
checks that the inner dimensions (the static column counts) agree and raises
its shape error carrying both of them otherwise. -/
def tf_matmul_transpose (left right : Tensor2) : Except TfError Tensor2 :=
  if left.cols = right.cols then
    .ok ⟨left.data.length, right.data.length,
      left.data.map fun lr => right.data.map fun rr => (List.zipWith (· * ·) lr rr).sum⟩
  else .error (.invalidArgument left.cols right.cols)

/-- Elementwise combination of two equal-shaped matrices. -/
def zipWith2D (f : ℝ → ℝ → ℝ) (a b : List (List ℝ)) : List (List ℝ) :=
  List.zipWith (List.zipWith f) a b

/-- `tf_cdist_euclidean` (source lines 82-96) over shape-carrying tensors:
tiled squared norms, the matmul cross term (where a shape error surfaces),
`sqr_sum = left_sqr - 2.0 * left_right_mat_mul + right_sqr`, and the clamp
`tf.where(sqr_sum > 0.0, tf.sqrt(sqr_sum), 0.0)`. -/
noncomputable def tf_cdist_euclidean_t (left right : Tensor2) : Except TfError Tensor2 := do
  let counts := get_rows_counts left right
  let left_sqr := get_tensor_sqr_col_t left counts.2
  let right_sqr := get_tensor_sqr_row_t right counts.1
  let left_right_mat_mul ← tf_matmul_transpose left right
  let sqr_sum_d := zipWith2D (· + ·)
    (zipWith2D (fun a b => a - 2 * b) left_sqr.data left_right_mat_mul.data)
    right_sqr.data
  return ⟨left.data.length, right.data.length,
    sqr_sum_d.map (List.map fun x => if x > 0 then Real.sqrt x else 0)⟩

/-- `tf_cdist_cos` (source lines 98-110) over shape-carrying tensors: the
cross term divided row-wise by the left-norm column, then elementwise by the
right-norm row, then `1.0 - cos`. -/
noncomputable def tf_cdist_cos_t (left right : Tensor2) : Except TfError Tensor2 := do
  let norm_left := left.data.map rowNorm
  let norm_right := right.data.map rowNorm
  let left_right_mat_mul ← tf_matmul_transpose left right
  let cos1 := List.zipWith (fun row nl => row.map fun x => x / nl)
    left_right_mat_mul.data norm_left
  let cos2 := cos1.map fun row => List.zipWith (fun x nr => x / nr) row norm_right
  return ⟨left.data.length, right.data.length, cos2.map (List.map fun x => 1 - x)⟩

/-- `tf_cdist` (source lines 66-79) over shape-carrying tensors. -/
noncomputable def tf_cdist_t (left right : Tensor2) (metric : String) :
    Except TfError Tensor2 :=
  if metric = "euclidean" then tf_cdist_euclidean_t left right
  else if metric = "cosine" then tf_cdist_cos_t left right
  else .error (.unsupportedMetric metric)

/-! ## Dimension mismatch and the shape contract -/

/-- C6 (amended): when the static column counts of `left` and `right` differ,
the dispatched call fails with the substrate's matmul shape error carrying
both inner dimensions — so no silently wrong-shaped result is produced — and
it does not fail with a dedicated `dimensionMismatch` error, which no code in
the source raises. -/
theorem cdist_dim_mismatch_substrate (left right : Tensor2)
    (h : left.cols ≠ right.cols) (metric : String)
    (hm : metric = "euclidean" ∨ metric = "cosine") :
    tf_cdist_t left right metric = .error (.invalidArgument left.cols right.cols) ∧
    tf_cdist_t left right metric ≠ .error .dimensionMismatch := by
  have hmm : tf_matmul_transpose left right =
      .error (.invalidArgument left.cols right.cols) := by
    unfold tf_matmul_transpose
    rw [if_neg h]
  have hok : tf_cdist_t left right metric =
      .error (.invalidArgument left.cols right.cols) := by
    rcases hm with hm | hm <;> subst hm
    · show tf_cdist_euclidean_t left right = _
      unfold tf_cdist_euclidean_t
      rw [hmm]
      rfl
    · show tf_cdist_cos_t left right = _
      unfold tf_cdist_cos_t
      rw [hmm]
      rfl
  refine ⟨hok, ?_⟩
  rw [hok]
  intro hcon
  exact TfError.noConfusion (Except.error.inj hcon)

/-- C6 counterexample: at `left = [[1, 2]]` (2 columns) and
`right = [[1, 2, 3]]` (3 columns), the dispatched Euclidean call fails with
the substrate's matmul shape error and not with a `dimensionMismatch` error,
refuting the claim that the code fails with a dedicated `DimensionMismatch`. -/
theorem cdist_dim_mismatch_counterexample :
    tf_cdist_t ⟨1, 2, [[1, 2]]⟩ ⟨1, 3, [[1, 2, 3]]⟩ "euclidean" =
      .error (.invalidArgument 2 3) ∧
    tf_cdist_t ⟨1, 2, [[1, 2]]⟩ ⟨1, 3, [[1, 2, 3]]⟩ "euclidean" ≠
      .error .dimensionMismatch := by
  refine ⟨rfl, fun hcon => ?_⟩
  exact TfError.noConfusion (Except.error.inj hcon)

theorem cdist_dim_mismatch_substrate_witness :
    ((⟨1, 2, [[1, 2]]⟩ : Tensor2).cols ≠ (⟨1, 3, [[1, 2, 3]]⟩ : Tensor2).cols) ∧
    ("cosine" = "euclidean" ∨ "cosine" = "cosine") ∧
    (tf_cdist_t ⟨1, 2, [[1, 2]]⟩ ⟨1, 3, [[1, 2, 3]]⟩ "cosine" =
        .error (.invalidArgument 2 3) ∧
      tf_cdist_t ⟨1, 2, [[1, 2]]⟩ ⟨1, 3, [[1, 2, 3]]⟩ "cosine" ≠
        .error .dimensionMismatch) :=
  ⟨by decide, Or.inr rfl,
    cdist_dim_mismatch_substrate ⟨1, 2, [[1, 2]]⟩ ⟨1, 3, [[1, 2, 3]]⟩ (by decide)
      "cosine" (Or.inr rfl)⟩

/-- C7: for well-formed inputs sharing a column count and either metric, the
call succeeds and the result has shape `(N_left, N_right)` — for any
dimensionality, including `N_left` or `N_right` equal to `1` or `0`; in the
latter case the result is the empty matrix of the corresponding degenerate
shape rather than an error. -/
theorem cdist_shape_contract (left right : Tensor2) (hwl : left.WF) (hwr : right.WF)
    (hd : left.cols = right.cols) (metric : String)
    (hm : metric = "euclidean" ∨ metric = "cosine") :
    ∃ out : Tensor2, tf_cdist_t left right metric = .ok out ∧
      out.rows = left.rows ∧ out.cols = right.rows ∧ out.WF := by
  have hmm : tf_matmul_transpose left right = .ok ⟨left.data.length, right.data.length,
      left.data.map fun lr => right.data.map fun rr => (List.zipWith (· * ·) lr rr).sum⟩ := by
    unfold tf_matmul_transpose
    rw [if_pos hd]
  rcases hm with hm | hm <;> subst hm
  · have heq : tf_cdist_t left right "euclidean" =
        .ok ⟨left.data.length, right.data.length,
          (zipWith2D (· + ·)
            (zipWith2D (fun a b => a - 2 * b)
              (left.data.map fun r => List.replicate right.data.length (rowSumSq r))
              (left.data.map fun lr => right.data.map fun rr =>
                (List.zipWith (· * ·) lr rr).sum))
            (List.replicate left.data.length (right.data.map rowSumSq))).map
          (List.map fun x => if x > 0 then Real.sqrt x else 0)⟩ := by
      show tf_cdist_euclidean_t left right = _
      unfold tf_cdist_euclidean_t
      rw [hmm]
      rfl
    refine ⟨_, heq, hwl.1, hwr.1, ?_, ?_⟩
    · simp [zipWith2D]
    · intro i h
      simp [zipWith2D, List.getElem_map, List.getElem_zipWith, List.getElem_replicate,
        List.length_map, List.length_zipWith, List.length_replicate]
  · have heq : tf_cdist_t left right "cosine" =
        .ok ⟨left.data.length, right.data.length,
          ((List.zipWith (fun row nl => row.map fun x => x / nl)
              (left.data.map fun lr => right.data.map fun rr =>
                (List.zipWith (· * ·) lr rr).sum)
              (left.data.map rowNorm)).map fun row =>
            List.zipWith (fun x nr => x / nr) row (right.data.map rowNorm)).map
          (List.map fun x => 1 - x)⟩ := by
      show tf_cdist_cos_t left right = _
      unfold tf_cdist_cos_t
      rw [hmm]
      rfl
    refine ⟨_, heq, hwl.1, hwr.1, ?_, ?_⟩
    · simp
    · intro i h
      simp [List.getElem_map, List.getElem_zipWith, List.length_map, List.length_zipWith]

/-! ## Concrete inputs for the witnesses -/

/-- The one-point set `{(1)}` in dimension one. -/
def onesMat : Matrix (Fin 1) (Fin 1) ℝ := fun _ _ => 1

/-- The one-point set `{(0)}` in dimension one: its single row has zero norm. -/
def zerosMat : Matrix (Fin 1) (Fin 1) ℝ := fun _ _ => 0

theorem onesMat_norm_ne_zero : ∀ i, get_tensor_reshaped_norm onesMat i ≠ 0 := by
  intro i
  simp [get_tensor_reshaped_norm, onesMat]

theorem emptyTensor_wf : (⟨0, 2, []⟩ : Tensor2).WF :=
  ⟨rfl, fun _ h => absurd h (by simp)⟩

theorem oneRowTensor_wf : (⟨1, 2, [[1, 2]]⟩ : Tensor2).WF := by
  refine ⟨rfl, ?_⟩
  intro i h
  have hi : i = 0 := by
    simp at h
    omega
  subst hi
  rfl

theorem cdist_nonneg_and_clamp_witness :
    (∀ i, get_tensor_reshaped_norm onesMat i ≠ 0) ∧
    (∀ j, get_tensor_reshaped_norm onesMat j ≠ 0) ∧
    (∀ i j, 0 ≤ tf_cdist_euclidean onesMat onesMat i j) ∧
    (∀ i j, 0 ≤ tf_cdist_cos onesMat onesMat i j) :=
  ⟨onesMat_norm_ne_zero, onesMat_norm_ne_zero,
    (cdist_nonneg_and_clamp onesMat onesMat).1,
    (cdist_nonneg_and_clamp onesMat onesMat).2.2.2 onesMat_norm_ne_zero
      onesMat_norm_ne_zero⟩

theorem cdist_unsupported_metric_witness :
    ("manhattan" ≠ "euclidean") ∧ ("manhattan" ≠ "cosine") ∧
    tf_cdist onesMat onesMat "manhattan" = .error (.unsupportedMetric "manhattan") :=
  ⟨by decide, by decide,
    cdist_unsupported_metric onesMat onesMat "manhattan" (by decide) (by decide)⟩

theorem cos_zero_norm_row_nan_witness :
    (∀ t, zerosMat 0 t = 0) ∧
    (tf_cdist zerosMat onesMat "cosine" = .ok (tf_cdist_cos zerosMat onesMat) ∧
      ∀ j, tf_cdist_cos_fv (fun i t => FVal.val (zerosMat i t))
        (fun i t => FVal.val (onesMat i t)) 0 j = FVal.nan) :=
  ⟨fun _ => rfl, cos_zero_norm_row_nan zerosMat onesMat 0 fun _ => rfl⟩

theorem cdist_shape_contract_witness :
    (⟨0, 2, []⟩ : Tensor2).WF ∧ (⟨1, 2, [[1, 2]]⟩ : Tensor2).WF ∧
    (⟨0, 2, ([] : List (List ℝ))⟩ : Tensor2).cols = (⟨1, 2, [[1, 2]]⟩ : Tensor2).cols ∧
    ("euclidean" = "euclidean" ∨ "euclidean" = "cosine") ∧
    ∃ out : Tensor2, tf_cdist_t ⟨0, 2, []⟩ ⟨1, 2, [[1, 2]]⟩ "euclidean" = .ok out ∧
      out.rows = (⟨0, 2, ([] : List (List ℝ))⟩ : Tensor2).rows ∧
      out.cols = (⟨1, 2, [[1, 2]]⟩ : Tensor2).rows ∧ out.WF :=
  ⟨emptyTensor_wf, oneRowTensor_wf, rfl, Or.inl rfl,
    cdist_shape_contract ⟨0, 2, []⟩ ⟨1, 2, [[1, 2]]⟩ emptyTensor_wf oneRowTensor_wf rfl
      "euclidean" (Or.inl rfl)⟩

theorem cos_entries_between_zero_and_two_witness :
    (∀ i, get_tensor_reshaped_norm onesMat i ≠ 0) ∧
    (∀ j, get_tensor_reshaped_norm onesMat j ≠ 0) ∧
    ∀ i j, 0 ≤ tf_cdist_cos onesMat onesMat i j ∧ tf_cdist_cos onesMat onesMat i j ≤ 2 :=
  ⟨onesMat_norm_ne_zero, onesMat_norm_ne_zero,
    cos_entries_between_zero_and_two onesMat onesMat onesMat_norm_ne_zero
      onesMat_norm_ne_zero⟩

end UtilSimilarity
